import Mathlib

/-!
Shallow embedding of the ROOTBEER online histogramming core
(`Event.cxx`, `Buffer.cxx`, `Hist.hxx`, `Rootbeer.cxx`) together with
theorems settling the specification claims about it.

Conventions used throughout:
* `Double_t` values are modelled as `ℚ` (exact rationals), bin counts as `ℚ`.
* Stateful C++ code is modelled as pure state-passing functions; the
  observable side effects of a call (lock transitions, tree fills,
  notifications, thread starts/stops) are recorded as explicit action traces.
-/

namespace rb

/-! ## Event processing — `rb::Event::Process` (Event.cxx, lines 26-39)

The body of `Process` is

```
Bool_t success = false;
{
  rb::ScopedLock<TVirtualMutex> cint_lock (gCINTMutex);
  LockingPointer<TTree> pTree(fTree, gDataMutex);
  success = DoProcess(event_address, nchar);
  if(success) {
    pTree->Fill();
    pTree->LoadTree(0);
  }
} // Locks go out of scope & unlock
if(success) fHistManager.FillAll();
else HandleBadEvent();
```

We record the observable actions of one call as a list.  `lockAcquire` /
`lockRelease` delimit the scoped-lock block (gCINTMutex + gDataMutex, taken
and released together at the braces). -/

/-- One observable action of `rb::Event::Process`. -/
inductive PAct
  | lockAcquire
  | doProcess (success : Bool)
  | treeFill
  | treeLoad
  | lockRelease
  | fillAll
  | handleBadEvent
  deriving Repr, DecidableEq

/-- Trace of observable actions of one call to `rb::Event::Process`, as a
function of the result of the pluggable unpack step `DoProcess`. -/
def Event.Process (success : Bool) : List PAct :=
  [PAct.lockAcquire, PAct.doProcess success] ++
  (if success then [PAct.treeFill, PAct.treeLoad] else []) ++
  [PAct.lockRelease] ++
  (if success then [PAct.fillAll] else [PAct.handleBadEvent])

/-- **C1** (counterexample): the claim says the histogram evaluation pass
(`FillAll`) runs inside the same critical section as the unpack write, before
that section is released.  In the trace of a successful `Process` call,
`fillAll` does occur, but it occurs after `lockRelease`, not before it. -/
theorem Event_Process_fillAll_after_unlock :
    PAct.fillAll ∈ Event.Process true ∧
    ¬ (Event.Process true).indexOf PAct.fillAll
        < (Event.Process true).indexOf PAct.lockRelease := by
  decide

/-- **C1** (amended): in a successful `Process` call, the unpack write
(`DoProcess`) and the row commit (`pTree->Fill()` / `LoadTree`) are performed
inside the critical section — after `lockAcquire` and before `lockRelease` —
while the histogram evaluation pass `FillAll` is performed only after the
critical section has been released, before `Process` returns. -/
theorem Event_Process_commit_in_lock_fillAll_after :
    (Event.Process true).indexOf PAct.lockAcquire
        < (Event.Process true).indexOf (PAct.doProcess true) ∧
    (Event.Process true).indexOf (PAct.doProcess true)
        < (Event.Process true).indexOf PAct.treeFill ∧
    (Event.Process true).indexOf PAct.treeFill
        < (Event.Process true).indexOf PAct.treeLoad ∧
    (Event.Process true).indexOf PAct.treeLoad
        < (Event.Process true).indexOf PAct.lockRelease ∧
    (Event.Process true).indexOf PAct.lockRelease
        < (Event.Process true).indexOf PAct.fillAll ∧
    PAct.fillAll ∈ Event.Process true := by
  decide

/-- **C2**: when the unpack step reports failure, the event row is not
committed (no `treeFill` in the trace), no histogram evaluation pass runs
(no `fillAll`), and the bad-event notification `HandleBadEvent` fires; the
call completes normally with exactly this trace, so the producer loop
continues with the next event. -/
theorem Event_Process_bad_event :
    Event.Process false =
      [PAct.lockAcquire, PAct.doProcess false, PAct.lockRelease,
       PAct.handleBadEvent] ∧
    PAct.treeFill ∉ Event.Process false ∧
    PAct.fillAll ∉ Event.Process false ∧
    PAct.handleBadEvent ∈ Event.Process false := by
  decide

/-! ## Histograms — Hist.hxx

`rb::Hist` wraps a stock ROOT histogram (`fHistogram`, whose bin contents live
in the flat `fArray` of length `fN`), a gate formula `fGate`, and one
parameter formula per axis (`fParams`).  We model the one-dimensional state
(the dimensionality all claims here use): bin contents as a list of `ℚ`,
the axis configuration, and the gate/parameter formula texts.  Formula
evaluation against the current event record is abstracted as a function from
formula text to the evaluated `ℚ` result. -/

/-- Mutable state of one `rb::Hist` (1-d): the wrapped histogram's in-range
bin contents and axis configuration, plus the gate and parameter formulas. -/
structure HistState where
  bins : List ℚ
  nbins : ℕ
  xlow : ℚ
  xhigh : ℚ
  gate : String
  params : List String
  deriving Repr, DecidableEq

/-- `TH1D::Fill(i)` for a histogram whose axis has `bins.length` unit-width
bins starting at 0 (the bit histogram is created with `NBITS` bins over
`[0, NBITS)`): increment the content of bin `i` by one. -/
def fillBin (bins : List ℚ) (i : ℕ) : List ℚ :=
  bins.set i (bins.getD i 0 + 1)

/-- `rb::BitHist<NBITS>::DoFill` (Hist.hxx lines 416-429): if the gate
evaluates false, return 0; otherwise decompose the value of the single
parameter into its `NBITS` low-order bits (`std::bitset<NBITS>` of the
evaluated parameter, converted to an unsigned integer) and, for
`i = 0 .. NBITS-1`, fill bin `i` and bump the return count whenever bit `i`
is set.  `gateVal` and `paramVal` are the already-evaluated results of
`gate->EvalInstance()` and `params[0]->EvalInstance()`. -/
def BitHist.DoFill (nbits : ℕ) (bins : List ℚ) (gateVal : ℚ) (paramVal : ℕ) :
    List ℚ × ℤ :=
  if gateVal = 0 then (bins, 0)
  else
    (List.range nbits).foldl
      (fun acc i =>
        if paramVal.testBit i then (fillBin acc.1 i, acc.2 + 1) else acc)
      (bins, 0)

/-- Bin index of value `x` on a linear axis of `nbins` bins over
`[low, high)`; `none` when `x` is out of range (out-of-range values are
silently dropped per spec §4.3). -/
def binIndex (nbins : ℕ) (low high x : ℚ) : Option ℕ :=
  if x < low ∨ high ≤ x then none
  else some (Int.toNat ⌊(x - low) * nbins / (high - low)⌋)

/-- Modelled from the spec: the body of `rb::Hist::DoFill` for the standard
variant lives in Hist.cxx, which is not among the sources.  Modelled from the
doc comment of `rb::Hist::Fill` (Hist.hxx lines 146-149) and spec §4.3:
evaluate the gate; if false/zero return 0 with no bin change; if true,
evaluate the parameter and increment the corresponding bin, silently dropping
out-of-range values; return the number of increments applied. -/
def Hist.DoFill (h : HistState) (gateVal : ℚ) (paramVal : ℚ) :
    HistState × ℤ :=
  if gateVal = 0 then (h, 0)
  else
    match binIndex h.nbins h.xlow h.xhigh paramVal with
    | none => (h, 0)
    | some i => ({ h with bins := fillBin h.bins i }, 1)

/-- `rb::Hist::Fill`: evaluates the stored gate and parameter formulas against
the current event record (`eval` abstracts `TTreeFormula::EvalInstance`) and
dispatches to `DoFill`. -/
def Hist.Fill (eval : String → ℚ) (h : HistState) : HistState × ℤ :=
  Hist.DoFill h (eval h.gate) (eval (h.params.headD ""))

/-- `rb::Hist::Clear` (Hist.hxx lines 167-171): for
`p = 0 .. fN-1`, set `fArray[p] = 0`; nothing else is touched. -/
def Hist.Clear (h : HistState) : HistState :=
  { h with
    bins := (List.range h.bins.length).foldl (fun arr p => arr.set p 0) h.bins }

/-- Modelled from the spec: the body of `rb::Hist::Regate` lives in Hist.cxx,
which is not among the sources.  Modelled from its doc comment (Hist.hxx
lines 181-185) and spec §4.3: recompile only the gate expression; return 0 and
install the newly compiled gate on success, return -1 and leave the existing
gate condition unchanged when the new gate text is not valid.  `compile`
stands for `TTreeFormula` compilation against the event record schema. -/
def Hist.Regate (compile : String → Option String) (h : HistState)
    (newgate : String) : HistState × ℤ :=
  match compile newgate with
  | none => (h, -1)
  | some g => ({ h with gate := g }, 0)

/-! ### Helper lemmas about the fill and clear loops -/

/-- The `BitHist::DoFill` loop never changes the number of bins. -/
lemma bitFold_length (pv : ℕ) :
    ∀ (idxs : List ℕ) (acc : List ℚ × ℤ),
      (idxs.foldl
          (fun acc i =>
            if pv.testBit i then (fillBin acc.1 i, acc.2 + 1) else acc)
          acc).1.length = acc.1.length := by
  intro idxs
  induction idxs with
  | nil => intro acc; rfl
  | cons i rest ih =>
      intro acc
      rw [List.foldl_cons, ih]
      by_cases hb : pv.testBit i <;> simp [hb, fillBin]

/-- Pointwise description of the `BitHist::DoFill` loop over bits
`0 .. m-1`: bin `j` gains exactly one count when `j < m` and bit `j` of the
parameter is set, and is untouched otherwise. -/
lemma bitFold_getElem (pv : ℕ) :
    ∀ (m : ℕ) (bins : List ℚ) (k : ℤ) (j : ℕ), m ≤ bins.length →
      ((List.range m).foldl
          (fun acc i =>
            if pv.testBit i then (fillBin acc.1 i, acc.2 + 1) else acc)
          (bins, k)).1[j]? =
        if j < m ∧ pv.testBit j then bins[j]?.map (fun b => b + 1)
        else bins[j]? := by
  intro m
  induction m with
  | zero => intro bins k j _; simp
  | succ m ih =>
      intro bins k j hm
      rw [List.range_succ, List.foldl_append, List.foldl_cons, List.foldl_nil]
      have hm' : m ≤ bins.length := Nat.le_of_succ_le hm
      have hlen := bitFold_length pv (List.range m) (bins, k)
      by_cases hb : pv.testBit m
      · rw [if_pos hb]
        by_cases hj : j = m
        · rw [hj]
          have hmlt : m < bins.length := Nat.lt_of_succ_le hm
          have hmlt' :
              m < ((List.range m).foldl
                (fun acc i =>
                  if pv.testBit i then (fillBin acc.1 i, acc.2 + 1) else acc)
                (bins, k)).1.length := by rw [hlen]; exact hmlt
          rw [fillBin, List.getElem?_set_self hmlt']
          have hself := ih bins k m hm'
          rw [if_neg (by simp)] at hself
          rw [List.getD_eq_getElem?_getD, hself,
            List.getElem?_eq_getElem hmlt]
          simp [hb, Nat.lt_succ_self]
        · rw [fillBin, List.getElem?_set_ne (Ne.symm hj), ih bins k j hm']
          have hiff : (j < m + 1) ↔ (j < m) := by omega
          simp only [hiff]
      · rw [if_neg hb, ih bins k j hm']
        by_cases hj : j = m
        · rw [hj]; simp [hb]
        · have hiff : (j < m + 1) ↔ (j < m) := by omega
          simp only [hiff]

/-- The return value of the `BitHist::DoFill` loop counts the set bits among
the bits scanned. -/
lemma bitFold_count (pv : ℕ) :
    ∀ (m : ℕ) (bins : List ℚ) (k : ℤ),
      ((List.range m).foldl
          (fun acc i =>
            if pv.testBit i then (fillBin acc.1 i, acc.2 + 1) else acc)
          (bins, k)).2 =
        k + (((List.range m).filter (fun i => pv.testBit i)).length : ℤ) := by
  intro m
  induction m with
  | zero => intro bins k; simp
  | succ m ih =>
      intro bins k
      rw [List.range_succ, List.foldl_append, List.foldl_cons, List.foldl_nil,
        List.filter_append]
      by_cases hb : pv.testBit m
      · rw [if_pos hb]
        show ((List.range m).foldl
            (fun acc i =>
              if pv.testBit i then (fillBin acc.1 i, acc.2 + 1) else acc)
            (bins, k)).2 + 1 = _
        rw [ih bins k]
        simp [hb, List.filter_cons]
        ring
      · rw [if_neg hb, ih bins k]
        simp [hb, List.filter_cons]

/-- The `Hist::Clear` loop never changes the number of bins. -/
lemma zeroFold_length :
    ∀ (idxs : List ℕ) (l : List ℚ),
      (idxs.foldl (fun arr p => arr.set p 0) l).length = l.length := by
  intro idxs
  induction idxs with
  | nil => intro l; rfl
  | cons i rest ih => intro l; rw [List.foldl_cons, ih, List.length_set]

/-- Pointwise description of the `Hist::Clear` loop over indices `0 .. m-1`:
every existing bin with index below `m` is zeroed, everything else is left
as it was. -/
lemma zeroFold_getElem :
    ∀ (m : ℕ) (l : List ℚ) (j : ℕ),
      ((List.range m).foldl (fun arr p => arr.set p 0) l)[j]? =
        if j < m ∧ j < l.length then some 0 else l[j]? := by
  intro m
  induction m with
  | zero => intro l j; simp
  | succ m ih =>
      intro l j
      rw [List.range_succ, List.foldl_append, List.foldl_cons, List.foldl_nil]
      have hlen := zeroFold_length (List.range m) l
      by_cases hj : j = m
      · rw [hj]
        by_cases hjl : m < l.length
        · have hjl' :
              m < ((List.range m).foldl (fun arr p => arr.set p 0) l).length := by
            rw [hlen]; exact hjl
          rw [List.getElem?_set_self hjl']
          simp [hjl, Nat.lt_succ_self]
        · rw [List.set_eq_of_length_le (by omega), ih l m]
          simp [hjl]
      · rw [List.getElem?_set_ne (Ne.symm hj), ih l j]
        have hiff : (j < m + 1) ↔ (j < m) := by omega
        simp only [hiff]

/-! ### Claims C3 - C6 -/

/-- **C3**: for a histogram whose gate expression evaluates to zero/false on
the current event, `Fill` returns 0 and no bin content is changed — for the
standard variant (`rb::Hist::DoFill`, whole state returned untouched) and for
the bit-mask variant (`rb::BitHist<NBITS>::DoFill`). -/
theorem DoFill_gate_false (h : HistState) (pv : ℚ) (n : ℕ) (bins : List ℚ)
    (bpv : ℕ) :
    Hist.DoFill h 0 pv = (h, 0) ∧
    BitHist.DoFill n bins 0 bpv = (bins, 0) := by
  constructor <;> simp [Hist.DoFill, BitHist.DoFill]

/-- **C4**: for a `BitMask<N>` histogram whose gate evaluates truthy,
`DoFill` increments bin `i` by exactly one for each set bit `i` among the `N`
low-order bits of the integer parameter value (and touches no other bin), and
returns the number of those set bits. -/
theorem BitHist_DoFill_bits (n : ℕ) (bins : List ℚ) (gv : ℚ) (pv : ℕ)
    (hg : gv ≠ 0) (hlen : bins.length = n) :
    (BitHist.DoFill n bins gv pv).1 =
      bins.mapIdx (fun i b => b + if pv.testBit i then 1 else 0) ∧
    (BitHist.DoFill n bins gv pv).2 =
      ((List.range n).filter (fun i => pv.testBit i)).length := by
  unfold BitHist.DoFill
  rw [if_neg hg]
  constructor
  · refine (List.mapIdx_eq_iff.mpr ?_).symm
    intro j
    rw [bitFold_getElem pv n bins 0 j (le_of_eq hlen.symm)]
    by_cases hb : pv.testBit j
    · by_cases hj : j < n
      · simp [hb, hj]
      · have hnone : bins[j]? = none :=
          List.getElem?_eq_none (by omega)
        simp [hb, hj, hnone]
    · rcases hx : bins[j]? with _ | b <;> simp [hb, hx]
  · rw [bitFold_count pv n bins 0, zero_add]

/-- Witness for C4 at the spec's Scenario B: a `BitMask<8>` histogram with
all bins zero, a passing gate, and parameter value `0b00010011 = 19`; the
fill returns 3 and bins 0, 1 and 4 each gain one count. -/
theorem BitHist_DoFill_bits_witness :
    ((BitHist.DoFill 8 (List.replicate 8 (0 : ℚ)) 1 19).1 =
        (List.replicate 8 (0 : ℚ)).mapIdx
          (fun i b => b + if Nat.testBit 19 i then 1 else 0) ∧
      (BitHist.DoFill 8 (List.replicate 8 (0 : ℚ)) 1 19).2 =
        ((List.range 8).filter (fun i => Nat.testBit 19 i)).length) ∧
    ((List.range 8).filter (fun i => Nat.testBit 19 i)).length = 3 ∧
    (List.replicate 8 (0 : ℚ)).mapIdx
        (fun i b => b + if Nat.testBit 19 i then 1 else 0) =
      [1, 1, 0, 0, 1, 0, 0, 0] :=
  ⟨BitHist_DoFill_bits 8 (List.replicate 8 0) 1 19 one_ne_zero (by simp),
   by decide, by simp [List.replicate, List.mapIdx_cons]; decide⟩

/-- **C5**: `Regate` with a gate text that fails to compile leaves the
histogram state completely unchanged (hence subsequent `Fill` behaviour is
identical) and returns -1; with a gate text that compiles it returns 0 and
replaces only the gate. -/
theorem Hist_Regate_atomic (compile : String → Option String) (h : HistState)
    (bad good g : String) (eval : String → ℚ)
    (hbad : compile bad = none) (hgood : compile good = some g) :
    Hist.Regate compile h bad = (h, -1) ∧
    Hist.Fill eval (Hist.Regate compile h bad).1 = Hist.Fill eval h ∧
    Hist.Regate compile h good = ({ h with gate := g }, 0) := by
  refine ⟨?_, ?_, ?_⟩ <;> simp [Hist.Regate, hbad, hgood]

/-- A compile environment and a histogram used to witness C5: only the text
`"e > 0"` compiles. -/
def demoCompile : String → Option String :=
  fun s => if s = "e > 0" then some "e > 0" else none

/-- A concrete histogram state used to witness C5. -/
def demoHist : HistState :=
  { bins := [0, 0], nbins := 2, xlow := 0, xhigh := 2,
    gate := "1", params := ["e"] }

/-- Witness for C5: regating `demoHist` with the invalid text `"bogus"`
fails and leaves it untouched; regating with the valid `"e > 0"` succeeds
and replaces only the gate. -/
theorem Hist_Regate_atomic_witness :
    Hist.Regate demoCompile demoHist "bogus" = (demoHist, -1) ∧
    Hist.Regate demoCompile demoHist "e > 0" =
      ({ demoHist with gate := "e > 0" }, 0) := by
  have h := Hist_Regate_atomic demoCompile demoHist "bogus" "e > 0" "e > 0"
    (fun _ => 0) (by decide) (by decide)
  exact ⟨h.1, h.2.2⟩

/-- **C6**: `Clear` zeroes every bin in place and leaves everything else —
bin count, axis limits, gate expression and parameter expressions —
unchanged. -/
theorem Hist_Clear_zeroes (h : HistState) :
    Hist.Clear h = { h with bins := List.replicate h.bins.length 0 } := by
  cases h with
  | mk bins nbins xlow xhigh gate params =>
      simp only [Hist.Clear, HistState.mk.injEq, and_true, true_and]
      refine List.ext_getElem? fun j => ?_
      rw [zeroFold_getElem bins.length bins j]
      by_cases hj : j < bins.length
      · simp [hj, List.getElem?_replicate]
      · have hnone : bins[j]? = none := List.getElem?_eq_none (by omega)
        simp [hj, hnone, List.getElem?_replicate]

/-! ## Buffer source — Buffer.cxx

`rb::File::Attach` (lines 28-44) runs the file producer loop:

```
while(fRun) {
  bool read_success = fBuffer->ReadBufferOffline();
  if (read_success) fBuffer->UnpackBuffer(); // got an event
  else if (kStopAtEnd) break; // we're done
  else gSystem->Sleep(10e3); // Wait 10 seconds for more data to come in
}
if(fRun) Info("AttachFile", "Done reading %s", ...);
else Info("AttachFile", "Connection aborted by user.");
```

We model a run of the loop over a finite list of read results, with the
cancellation flag `fRun` held true throughout (no concurrent `Unattach`).
Each element of the list is one iteration's pair
(`ReadBufferOffline` result, outcome of unpacking that buffer's events);
the loop itself never inspects the second component. -/

/-- One observable action of the file producer loop. -/
inductive FileAction
  | unpack (eventsOk : Bool)
  | doneReading
  | sleepRetry
  deriving Repr, DecidableEq

/-- Trace of the `rb::File::Attach` loop over the given read results:
read success unpacks the buffer and continues; read failure with
`kStopAtEnd` breaks out and (with `fRun` still true) reports "Done reading";
read failure without `kStopAtEnd` sleeps and retries. -/
def File.Attach (stopAtEnd : Bool) : List (Bool × Bool) → List FileAction
  | [] => []
  | (readOk, evOk) :: rest =>
    if readOk then FileAction.unpack evOk :: File.Attach stopAtEnd rest
    else if stopAtEnd then [FileAction.doneReading]
    else FileAction.sleepRetry :: File.Attach stopAtEnd rest

/-- Recognizer for unpack actions. -/
def FileAction.isUnpack : FileAction → Bool
  | FileAction.unpack _ => true
  | _ => false

/-- Without `stopAtEnd`, the file loop never reports completion: every read
failure is retried. -/
lemma File_Attach_no_done (reads : List (Bool × Bool)) :
    FileAction.doneReading ∉ File.Attach false reads := by
  induction reads with
  | nil => simp [File.Attach]
  | cons r rest ih =>
      obtain ⟨ro, eo⟩ := r
      by_cases hro : ro = true <;> simp [File.Attach, hro, ih]

/-- Without `stopAtEnd`, the file loop unpacks one buffer per successful
read: no successful read is dropped. -/
lemma File_Attach_unpack_count (reads : List (Bool × Bool)) :
    (File.Attach false reads).countP FileAction.isUnpack
      = reads.countP (fun r => r.1) := by
  induction reads with
  | nil => simp [File.Attach]
  | cons r rest ih =>
      obtain ⟨ro, eo⟩ := r
      by_cases hro : ro = true <;>
        simp [File.Attach, hro, List.countP_cons, ih, FileAction.isUnpack]

/-! ### Attach lifecycle — `rb::BufferSource` and the public attach calls -/

/-- One observable action of the attach machinery. -/
inductive SrcAction
  | stopSignal (c : String)
  | joinCtx (c : String)
  | startCtx (c : String)
  | openError
  | listUnimplemented
  deriving Repr, DecidableEq

/-- Modelled from the spec: `fConnector.Stop()` (Buffer.hxx, not under src/)
destroys the connector it currently holds, if any; the `rb::Connector`
destructor (Buffer.cxx lines 20-23) sets `fRun = kFALSE` (the stop signal)
and then calls `fThread->Join()`.  Stopping therefore signals and joins each
running producer context, in that order. -/
def connectorStop : List String → List SrcAction
  | [] => []
  | c :: rest =>
      SrcAction.stopSignal c :: SrcAction.joinCtx c :: connectorStop rest

/-- `rb::BufferSource::Unattach` (Buffer.cxx lines 209-211): stop the held
connector.  Returns the running producer contexts after the call (none) and
the actions performed. -/
def BufferSource.Unattach (running : List String) :
    List String × List SrcAction :=
  ([], connectorStop running)

/-- `rb::BufferSource::StartConnection` (Buffer.cxx lines 203-207):
`Unattach()` first, then start and run the new connector. -/
def BufferSource.StartConnection (running : List String) (c : String) :
    List String × List SrcAction :=
  let u := BufferSource.Unattach running
  (c :: u.1, u.2 ++ [SrcAction.startCtx c])

/-- `rb::BufferSource::RunFile` (Buffer.cxx lines 241-249): `rb::Unattach()`
first; try to open the file; if unreadable, report the open error and return
without starting anything; otherwise start the file connector. -/
def BufferSource.RunFile (running : List String) (canOpen : Bool)
    (c : String) : List String × List SrcAction :=
  let u := BufferSource.Unattach running
  if !canOpen then (u.1, u.2 ++ [SrcAction.openError])
  else
    let s := BufferSource.StartConnection u.1 c
    (s.1, u.2 ++ s.2)

/-- `rb::AttachList` (Buffer.cxx lines 327-334): not implemented; reports an
error and leaves the connection state untouched. -/
def AttachList (running : List String) : List String × List SrcAction :=
  (running, [SrcAction.listUnimplemented])

/-- One public attach-interface call (Rootbeer.hxx implementations in
Buffer.cxx lines 262-341): attach to a file (`rb::AttachFile` →
`RunFile`), attach online (`rb::AttachOnline` → `RunOnline` →
`StartConnection`), attach to a list file, or `rb::Unattach`. -/
inductive ApiOp
  | attachFile (name : String) (canOpen : Bool)
  | attachOnline (name : String)
  | attachList
  | unattach
  deriving Repr, DecidableEq

/-- Effect of one public attach call on the set of running producer
contexts, together with its action trace. -/
def applyOp (running : List String) : ApiOp → List String × List SrcAction
  | ApiOp.attachFile name canOpen => BufferSource.RunFile running canOpen name
  | ApiOp.attachOnline name => BufferSource.StartConnection running name
  | ApiOp.attachList => AttachList running
  | ApiOp.unattach => BufferSource.Unattach running

/-- Running contexts after a sequence of public attach calls. -/
def applyOps (running : List String) : List ApiOp → List String
  | [] => running
  | op :: rest => applyOps (applyOp running op).1 rest

/-- Recognizer for start actions. -/
def isStart : SrcAction → Bool
  | SrcAction.startCtx _ => true
  | _ => false

/-- Recognizer for stop/join actions. -/
def isStop : SrcAction → Bool
  | SrcAction.stopSignal _ => true
  | SrcAction.joinCtx _ => true
  | _ => false

/-- Holds when no stop/join action occurs after a start action in the
trace: whatever is stopped is stopped before anything new starts. -/
def noStopAfterStart : List SrcAction → Bool
  | [] => true
  | a :: rest =>
      (if isStart a then rest.all (fun b => !isStop b) else true) &&
        noStopAfterStart rest

/-- Stopping connectors emits no start action. -/
lemma connectorStop_all (l : List String) :
    (connectorStop l).all (fun a => !isStart a) = true := by
  induction l with
  | nil => rfl
  | cons c rest ih =>
      simp only [connectorStop, List.all_cons, Bool.and_eq_true]
      exact ⟨by simp [isStart], by simp [isStart], ih⟩

/-- No start action is a member of a connector-stop trace. -/
lemma connectorStop_no_start (l : List String) (name : String) :
    SrcAction.startCtx name ∉ connectorStop l := by
  induction l with
  | nil => simp [connectorStop]
  | cons c rest ih => simp [connectorStop, ih]

/-- A trace with no stop actions trivially keeps every stop before every
start. -/
lemma noStopAfterStart_of_no_stop (B : List SrcAction)
    (hB : B.all (fun b => !isStop b) = true) :
    noStopAfterStart B = true := by
  induction B with
  | nil => rfl
  | cons b rest ih =>
      rw [List.all_cons, Bool.and_eq_true] at hB
      by_cases hs : isStart b = true <;>
        simp [noStopAfterStart, hs, ih hB.2, hB.2]

/-- A trace made of non-start actions followed by non-stop actions has all
its stops before any start. -/
lemma noStopAfterStart_append (A B : List SrcAction)
    (hA : A.all (fun a => !isStart a) = true)
    (hB : B.all (fun b => !isStop b) = true) :
    noStopAfterStart (A ++ B) = true := by
  induction A with
  | nil => simpa using noStopAfterStart_of_no_stop B hB
  | cons a restA ihA =>
      rw [List.all_cons, Bool.and_eq_true] at hA
      have ha : isStart a = false := by simpa using hA.1
      simp [noStopAfterStart, ha, ihA hA.2]

/-- The set of running producer contexts has at most one element after any
public attach call whose input had at most one. -/
lemma applyOp_le_one (running : List String) (op : ApiOp)
    (h : running.length ≤ 1) : ((applyOp running op).1).length ≤ 1 := by
  cases op with
  | attachFile name canOpen =>
      by_cases hc : canOpen = true <;>
        simp [applyOp, BufferSource.RunFile, BufferSource.StartConnection,
          BufferSource.Unattach, hc]
  | attachOnline name =>
      simp [applyOp, BufferSource.StartConnection, BufferSource.Unattach]
  | attachList => simpa [applyOp, AttachList] using h
  | unattach => simp [applyOp, BufferSource.Unattach]

/-- After any sequence of public attach calls starting from at most one
running context, at most one context is running. -/
lemma applyOps_le_one (ops : List ApiOp) :
    ∀ running : List String, running.length ≤ 1 →
      (applyOps running ops).length ≤ 1 := by
  induction ops with
  | nil => intro running h; simpa [applyOps] using h
  | cons op rest ih =>
      intro running h
      exact ih (applyOp running op).1 (applyOp_le_one running op h)

/-! ### Claims C7 - C9 -/

/-- **C7**: each iteration of the file producer loop (while not cancelled)
unpacks the buffer when the read succeeds, stops cleanly and reports
completion when the read fails with `stopAtEnd`, and sleeps briefly and
retries when the read fails without `stopAtEnd`; consequently without
`stopAtEnd` the loop never terminates on read failure (no completion report)
and every successful read is unpacked. -/
theorem File_Attach_loop (s evOk : Bool) (rest reads : List (Bool × Bool)) :
    File.Attach s ((true, evOk) :: rest)
        = FileAction.unpack evOk :: File.Attach s rest ∧
    File.Attach true ((false, evOk) :: rest) = [FileAction.doneReading] ∧
    File.Attach false ((false, evOk) :: rest)
        = FileAction.sleepRetry :: File.Attach false rest ∧
    FileAction.doneReading ∉ File.Attach false reads ∧
    (File.Attach false reads).countP FileAction.isUnpack
        = reads.countP (fun r => r.1) := by
  refine ⟨by simp [File.Attach], by simp [File.Attach], by simp [File.Attach],
    File_Attach_no_done reads, File_Attach_unpack_count reads⟩

/-- **C8**: every attach request first stops — signals and joins — any
running producer context before starting the new one (the trace of a
file or online attach is exactly the stop actions for the old contexts
followed by the start of the new one; no attach call ever emits a stop after
a start), and after any sequence of attach/unattach calls at most one
producer context is running. -/
theorem attach_single_producer (running : List String) (n : String)
    (op : ApiOp) (ops : List ApiOp) :
    (applyOp running (ApiOp.attachFile n true)).2
        = connectorStop running ++ [SrcAction.startCtx n] ∧
    (applyOp running (ApiOp.attachOnline n)).2
        = connectorStop running ++ [SrcAction.startCtx n] ∧
    noStopAfterStart (applyOp running op).2 = true ∧
    (applyOps [] ops).length ≤ 1 := by
  refine ⟨?_, ?_, ?_, applyOps_le_one ops [] (by simp)⟩
  · simp [applyOp, BufferSource.RunFile, BufferSource.StartConnection,
      BufferSource.Unattach, connectorStop]
  · simp [applyOp, BufferSource.StartConnection, BufferSource.Unattach]
  · cases op with
    | attachFile name canOpen =>
        by_cases hc : canOpen = true
        · have := noStopAfterStart_append (connectorStop running)
            [SrcAction.startCtx name] (connectorStop_all running)
            (by simp [isStop])
          simpa [applyOp, BufferSource.RunFile, BufferSource.StartConnection,
            BufferSource.Unattach, hc, connectorStop] using this
        · have := noStopAfterStart_append (connectorStop running)
            [SrcAction.openError] (connectorStop_all running)
            (by simp [isStop])
          simpa [applyOp, BufferSource.RunFile, BufferSource.Unattach, hc]
            using this
    | attachOnline name =>
        have := noStopAfterStart_append (connectorStop running)
          [SrcAction.startCtx name] (connectorStop_all running)
          (by simp [isStop])
        simpa [applyOp, BufferSource.StartConnection, BufferSource.Unattach]
          using this
    | attachList =>
        have := noStopAfterStart_append []
          [SrcAction.listUnimplemented] (by simp) (by simp [isStop])
        simpa [applyOp, AttachList] using this
    | unattach =>
        have := noStopAfterStart_append (connectorStop running) []
          (connectorStop_all running) (by simp)
        simpa [applyOp, BufferSource.Unattach] using this

/-- **C9**: attaching to an unreadable file surfaces the open error, starts
no producer context, and leaves the buffer source idle (no running
contexts). -/
theorem RunFile_open_error (running : List String) (c : String) :
    BufferSource.RunFile running false c
        = ([], connectorStop running ++ [SrcAction.openError]) ∧
    ∀ name, SrcAction.startCtx name ∉ (BufferSource.RunFile running false c).2 := by
  constructor
  · simp [BufferSource.RunFile, BufferSource.Unattach]
  · intro name
    simp [BufferSource.RunFile, BufferSource.Unattach,
      (connectorStop_no_start running name)]

/-! ## Data access — `rb::data::GetValue` (Rootbeer.cxx lines 192-200) -/

/-- Modelled from the spec: `rb::data::MBasic::Find` (Data.cxx, not under
src/) looks up the registered data object with the given name, returning
null when none is registered.  The store of registered objects is modelled
as an association list from names to stored values. -/
def MBasic.Find : List (String × ℚ) → String → Option ℚ
  | [], _ => none
  | (k, v) :: rest, name => if k = name then some v else MBasic.Find rest name

/-- `rb::data::GetValue` (Rootbeer.cxx lines 192-200): look the name up; if
no data object is found, report an error and return -1; otherwise return the
stored value cast to double.  Result: the value returned to the caller,
whether the error was reported, and the data store after the call. -/
def data.GetValue (store : List (String × ℚ)) (name : String) :
    ℚ × Bool × List (String × ℚ) :=
  match MBasic.Find store name with
  | none => (-1, true, store)
  | some v => (v, false, store)

/-- **C10**: for a name with no registered data object, `GetValue` reports
an error and returns the sentinel -1, leaving the store unchanged — and that
return value is indistinguishable from the one for a store that genuinely
holds -1 under the name. -/
theorem GetValue_missing (store : List (String × ℚ)) (name : String)
    (h : MBasic.Find store name = none) :
    data.GetValue store name = (-1, true, store) ∧
    data.GetValue [(name, -1)] name = (-1, false, [(name, -1)]) ∧
    (data.GetValue store name).1 = (data.GetValue [(name, -1)] name).1 := by
  refine ⟨?_, ?_, ?_⟩ <;> simp [data.GetValue, MBasic.Find, h]

/-- Witness for C10: the name `"e"` is not in the store `[("a", 2)]`; the
lookup reports the error and returns -1, exactly the value returned without
error for the store `[("e", -1)]`. -/
theorem GetValue_missing_witness :
    data.GetValue [("a", (2 : ℚ))] "e" = (-1, true, [("a", 2)]) ∧
    data.GetValue [("e", -1)] "e" = (-1, false, [("e", -1)]) ∧
    (data.GetValue [("a", (2 : ℚ))] "e").1
      = (data.GetValue [("e", -1)] "e").1 :=
  GetValue_missing [("a", 2)] "e" (by decide)

end rb
